import Mathlib

/-
Verification development for the consoleAI chat client (ai.py).

The definitions below are shallow embeddings of the pure parts of ai.py:
Python strings are modelled as List Char, Python str.find as findSub
(returning Option Nat instead of -1), and the streaming read loop of
stream_response as an explicit state machine over parsed line objects.
Terminal output of token-derived text is modelled as two accumulated
character streams: vis (text written in the answer colour) and thk (text
written in the thinking colour when reasoning display is enabled); ANSI
colour codes, the structural newline emitted at a region close, and the
bracketed Thinking label are presentation artifacts and are not modelled.
-/

set_option maxRecDepth 4000

/-- Boolean test that the first list starts the second, used by findSub. -/
def leadsWith : List Char → List Char → Bool
  | [], _ => true
  | _ :: _, [] => false
  | a :: p, b :: s => a == b && leadsWith p s

/-- Index of the first occurrence of pattern p inside s; models Python
str.find, with none standing for the -1 result. -/
def findSub (p : List Char) : List Char → Option Nat
  | [] => if leadsWith p [] then some 0 else none
  | b :: s => if leadsWith p (b :: s) then some 0 else (findSub p s).map (· + 1)

/-- Characters of the opening marker scanned for by ai.py. -/
def openPat : List Char := ['<', 't', 'h', 'i', 'n', 'k']

/-- Characters of the closing marker scanned for by ai.py. -/
def closePat : List Char := ['<', '/', 't', 'h', 'i', 'n', 'k']

/-- Character list holding the single bracket terminator of a marker. -/
def gtPat : List Char := ['>']

/-- Tag stripper loop body of strip_think_tags (ai.py lines 202-220), with
an explicit fuel argument so the kernel can evaluate it; fuel is always run
with at least length + 1, which the congruence lemma below shows suffices. -/
def stripThinkF : Nat → List Char → List Char
  | 0, _ => []
  | fuel + 1, rem =>
    match findSub openPat rem with
    | none => rem
    | some start =>
      let after_open := rem.drop (start + 6)
      let rem2 := match findSub gtPat after_open with
        | some b => after_open.drop (b + 1)
        | none => []
      match findSub closePat rem2 with
      | none => rem.take start
      | some close =>
        let after_close := rem2.drop (close + 7)
        let rem3 := match findSub gtPat after_close with
          | some b2 => after_close.drop (b2 + 1)
          | none => []
        rem.take start ++ stripThinkF fuel rem3

/-- strip_think_tags from ai.py, over character lists. -/
def stripThink (rem : List Char) : List Char := stripThinkF (rem.length + 1) rem

/-- strip_think_tags from ai.py (String wrapper). -/
def strip_think_tags (text : String) : String := ⟨stripThink text.data⟩

/-- One call of the inline tag-splitting machine of stream_response
(ai.py lines 721-763) on a single text token, with an explicit fuel.
Arguments after the fuel: is_thinking, in_think_disp, remaining.
Returns (is_thinking, in_think_disp, vis, thk) where vis collects the
token text written in the answer colour and thk the token text written in
the thinking colour (only produced when et, the reasoning display flag,
is on). -/
def tagLoopF (et : Bool) : Nat → Bool → Bool → List Char → Bool × Bool × List Char × List Char
  | 0, isT, inD, _ => (isT, inD, [], [])
  | fuel + 1, isT, inD, rem =>
    if rem = [] then (isT, inD, [], [])
    else if isT then
      match findSub closePat rem with
      | some close =>
        let before := rem.take close
        let after0 := rem.drop (close + 7)
        let after := match findSub gtPat after0 with
          | some b => after0.drop (b + 1)
          | none => []
        let r := tagLoopF et fuel false false after
        (r.1, r.2.1, r.2.2.1, (if et then before else []) ++ r.2.2.2)
      | none => (true, inD, [], if et then rem else [])
    else
      match findSub openPat rem with
      | some o =>
        let before := rem.take o
        let after0 := rem.drop (o + 6)
        let after := match findSub gtPat after0 with
          | some b => after0.drop (b + 1)
          | none => []
        let r := tagLoopF et fuel true (if et then true else inD) after
        (r.1, r.2.1, before ++ r.2.2.1, (if et then openPat else []) ++ r.2.2.2)
      | none => (false, false, rem, [])

/-- The inline tag-splitting machine on one text token (fuel instantiated). -/
def tagLoop (et isT inD : Bool) (rem : List Char) : Bool × Bool × List Char × List Char :=
  tagLoopF et (rem.length + 1) isT inD rem

/-- Feeding one text token through the persistent tag machine state, as
stream_response does for each text-delta (state = (is_thinking, in_think_disp)). -/
def feedText (et : Bool) (st : Bool × Bool) (tok : List Char) :
    (Bool × Bool) × List Char × List Char :=
  let r := tagLoop et st.1 st.2 tok
  ((r.1, r.2.1), r.2.2.1, r.2.2.2)

/-- Feeding a sequence of text tokens; outputs of both sinks are concatenated
in arrival order. -/
def feedTokens (et : Bool) : (Bool × Bool) → List (List Char) → (Bool × Bool) × List Char × List Char
  | st, [] => (st, [], [])
  | st, tok :: rest =>
    let r1 := feedText et st tok
    let r2 := feedTokens et r1.1 rest
    (r2.1, r1.2.1 ++ r2.2.1, r1.2.2 ++ r2.2.2)

/-- Roles a message can carry in ai.py histories. -/
inductive Role
  | system
  | user
  | assistant
  | model
deriving DecidableEq

/-- Message carrier: either a plain content string (OpenAI-compatible shape)
or a list of part texts (Gemini parts shape). Image parts are not needed by
the claims and are elided. -/
inductive Content
  | str (s : String)
  | parts (texts : List String)
deriving DecidableEq

/-- One conversational turn. -/
structure Turn where
  role : Role
  content : Content
deriving DecidableEq

/-- MAX_HISTORY_MESSAGES from ai.py. -/
def MAX_HISTORY_MESSAGES : Nat := 20

/-- MAX_MESSAGE_LENGTH from ai.py. -/
def MAX_MESSAGE_LENGTH : Nat := 50000

/-- Whether the first history entry carries the system role, as checked by
truncate_history via history and history[0].get("role") == "system". -/
def headIsSystem : List Turn → Bool
  | [] => false
  | t :: _ => t.role == Role.system

/-- truncate_history from ai.py (lines 399-414). -/
def truncate_history (history : List Turn) (is_openai_compat : Bool) : List Turn :=
  let system_offset : Nat := if is_openai_compat && headIsSystem history then 1 else 0
  let max_total := MAX_HISTORY_MESSAGES + system_offset
  if history.length ≤ max_total then history
  else
    let to_remove := history.length - max_total
    let to_remove2 := if !is_openai_compat && to_remove % 2 == 1 then to_remove + 1 else to_remove
    if system_offset = 1 then history.take 1 ++ history.drop (1 + to_remove2)
    else history.drop to_remove2

/-- The rollback guard of chat_loop (ai.py lines 1087-1091): drop the last
turn when and only when it carries the user role. -/
def rollback_user (history : List Turn) : List Turn :=
  match history.getLast? with
  | some t => if t.role = Role.user then history.dropLast else history
  | none => history

/-- The commit step of chat_loop (ai.py lines 1082-1091): on a truthy reply
append the assistant (or, for Gemini, model) turn, otherwise roll back the
dangling user turn. -/
def commit (is_openai_compat : Bool) (history : List Turn) (ai_text : Option String) : List Turn :=
  match ai_text with
  | some t =>
    if t = "" then rollback_user history
    else if is_openai_compat then history ++ [⟨Role.assistant, Content.str t⟩]
    else history ++ [⟨Role.model, Content.parts [t]⟩]
  | none => rollback_user history

/-- DEFAULT prompt substituted when only an image is attached (ai.py line 1058). -/
def DEFAULT_IMAGE_PROMPT : String := "Describe this image in detail."

/-- Whitespace predicate used by the model of Python str.strip. -/
def isSpaceChar (c : Char) : Bool := c == ' ' || c == '\t' || c == '\n' || c == '\r'

/-- Model of Python str.strip on character lists. -/
def pyStrip (s : List Char) : List Char :=
  ((s.dropWhile isSpaceChar).reverse.dropWhile isSpaceChar).reverse

/-- The empty-input guard of chat_loop (ai.py lines 969 and 1053-1058):
input is stripped; stripped-empty input with no image skips the turn (none),
stripped-empty input with an image substitutes the default image prompt,
anything else is sent as typed. -/
def effective_user_input (raw : List Char) (image_attached : Bool) : Option (List Char) :=
  let user_input := pyStrip raw
  if user_input.isEmpty && !image_attached then none
  else if user_input.isEmpty && image_attached then some DEFAULT_IMAGE_PROMPT.data
  else some user_input

/-- Provider families distinguished by the stream loop: gemini, ollama, or
any other OpenAI-compatible provider (openrouter, groq, together, cerebras,
novita), which all share one extraction path. -/
inductive Provider
  | gemini
  | ollama
  | openai
deriving DecidableEq

/-- Per-request flags of stream_response that the loop consults. -/
structure Ctx where
  provider : Provider
  enable_tools : Bool
  enable_thinking : Bool

/-- The object-level error carriers inspected by the loop (ai.py lines
638-645): an error object with a string message, an error object without
one (whose str() representation is used), an error string, or a detail
string; the constructors record which branch of the elif chain applies. -/
inductive ErrField
  | absent
  | dictMsg (m : String)
  | dictRepr (r : String)
  | str (s : String)
  | detail (s : String)
deriving DecidableEq

/-- chunk_err as computed by ai.py lines 639-645. -/
def chunkErr : ErrField → Option String
  | .absent => none
  | .dictMsg m => some m
  | .dictRepr r => some r
  | .str s => some s
  | .detail s => some s

/-- The truthiness test on chunk_err (ai.py line 646): an empty string is
falsy and does not trigger the error branch. -/
def errTruthy (e : ErrField) : Option String :=
  match chunkErr e with
  | some s => if s = "" then none else some s
  | none => none

/-- delta object of an OpenAI-compatible choice. -/
structure Delta where
  content : Option String
  reasoning : Option String
deriving DecidableEq

/-- One element of the choices array. -/
structure Choice where
  delta : Delta
  finish_reason : Option String
deriving DecidableEq

/-- message object of the Ollama native protocol. -/
structure OMsg where
  content : Option String
  thinking : Option String
deriving DecidableEq

/-- One Gemini content part; functionCall records whether the part carries a
functionCall key. -/
structure GPart where
  text : Option String
  functionCall : Bool
deriving DecidableEq

/-- One Gemini candidate; parts models content.parts (none when the chain of
gets falls back to the default single empty part), and blockedRating records
whether any safetyRatings entry has a truthy blocked field. -/
structure Candidate where
  parts : Option (List GPart)
  finishReason : Option String
  blockedRating : Bool
deriving DecidableEq

/-- One parsed stream object, holding exactly the fields ai.py reads. -/
structure Obj where
  err : ErrField
  choices : List Choice
  message : OMsg
  done : Option Bool
  candidates : List Candidate
  blockReason : Option String
deriving DecidableEq

/-- Extraction for OpenAI-compatible non-Ollama providers (ai.py 661-665). -/
def openaiExtract (o : Obj) : String × String × String :=
  let c := o.choices.headD ⟨⟨none, none⟩, none⟩
  (c.delta.content.getD "", c.delta.reasoning.getD "", c.finish_reason.getD "")

/-- Extraction for the Ollama native protocol (ai.py 656-660). -/
def ollamaExtract (o : Obj) : String × String × String :=
  (o.message.content.getD "", o.message.thinking.getD "",
   if o.done = some true then "stop" else "")

/-- Extraction for Gemini (ai.py 667-685): first candidate, first part text,
finishReason, with the safety-ratings override that turns a blank finish
into SAFETY when a blocked rating is present. -/
def gemExtract (o : Obj) : String × String :=
  let cand := o.candidates.headD ⟨none, none, false⟩
  let parts := cand.parts.getD [⟨none, false⟩]
  let text := match parts with
    | [] => ""
    | p :: _ => p.text.getD ""
  let fin0 := cand.finishReason.getD ""
  let fin := if (fin0 == "" || fin0 == "null") && cand.blockedRating then "SAFETY" else fin0
  (text, fin)

/-- Whether any part of the first candidate carries a functionCall
(ai.py 688-689); a non-empty filtered list is truthy. -/
def hasToolParts (o : Obj) : Bool :=
  !(((o.candidates.headD ⟨none, none, false⟩).parts.getD [⟨none, false⟩]).filter
    (fun p => p.functionCall)).isEmpty

/-- Stream state of stream_response (ai.py 592-599) plus the two modelled
output sinks vis and thk. -/
structure SState where
  full_text : List Char
  full_thinking : List Char
  first_chunk : Bool
  is_thinking : Bool
  in_think_disp : Bool
  finish_reason : String
  error_msg : String
  vis : List Char
  thk : List Char
deriving DecidableEq

/-- Initial stream state (ai.py 592-598). -/
def initState : SState :=
  { full_text := [], full_thinking := [], first_chunk := true, is_thinking := false,
    in_think_disp := false, finish_reason := "", error_msg := "", vis := [], thk := [] }

/-- What a processed line tells the inner loop to do next: keep reading the
buffered lines, or leave the line-splitting loop. -/
inductive Cmd
  | cont
  | brk
deriving DecidableEq

/-- The Gemini abnormal finish set (ai.py line 766). -/
def abnormalFinish (fr : String) : Bool :=
  fr == "SAFETY" || fr == "RECITATION" || fr == "OTHER"

/-- Record the first non-empty finish signal (ai.py 701-702). -/
def updFinish (s0 : SState) (cur_finish : String) : SState :=
  if cur_finish ≠ "" ∧ s0.finish_reason = "" then
    { s0 with finish_reason := cur_finish } else s0

/-- Clear the first-chunk flag when a token arrives (ai.py 705-708). -/
def updFirstChunk (s1 : SState) (text_tok think_tok : String) : SState :=
  if s1.first_chunk ∧ (text_tok ≠ "" ∨ think_tok ≠ "") then
    { s1 with first_chunk := false } else s1

/-- Handle a native thinking token (ai.py 711-718). -/
def updThink (et : Bool) (s2 : SState) (think_tok : String) : SState :=
  if think_tok ≠ "" then
    { s2 with full_thinking := s2.full_thinking ++ think_tok.data,
              in_think_disp := if et then true else s2.in_think_disp,
              thk := if et then s2.thk ++ think_tok.data else s2.thk }
  else s2

/-- Append a text token and run it through the tag machine (ai.py 721-763). -/
def updText (et : Bool) (s3 : SState) (text_tok : String) : SState :=
  if text_tok ≠ "" then
    let r := tagLoop et s3.is_thinking s3.in_think_disp text_tok.data
    { s3 with full_text := s3.full_text ++ text_tok.data,
              is_thinking := r.1, in_think_disp := r.2.1,
              vis := s3.vis ++ r.2.2.1, thk := s3.thk ++ r.2.2.2 }
  else s3

/-- The Gemini abnormal-finish and Ollama done checks that close each line
iteration (ai.py 765-772). -/
def commonTailChecks (ctx : Ctx) (s4 : SState) : SState × Cmd :=
  if ctx.provider = Provider.gemini ∧ abnormalFinish s4.finish_reason then
    (if s4.full_text = [] then
        { s4 with error_msg := "Stream ended by API (reason: " ++ s4.finish_reason ++ ")" }
      else s4, Cmd.brk)
  else if ctx.provider = Provider.ollama ∧ s4.finish_reason = "stop" then (s4, Cmd.brk)
  else (s4, Cmd.cont)

/-- The common tail of per-line processing (ai.py 701-772): record the first
non-empty finish signal, clear the first-chunk flag, handle the native
thinking token, run the text token through the tag machine, then apply the
Gemini abnormal-finish and Ollama done checks. -/
def commonTail (ctx : Ctx) (s0 : SState) (text_tok think_tok cur_finish : String) :
    SState × Cmd :=
  commonTailChecks ctx
    (updText ctx.enable_thinking
      (updThink ctx.enable_thinking
        (updFirstChunk (updFinish s0 cur_finish) text_tok think_tok) think_tok) text_tok)

/-- Per-object processing of the stream loop (ai.py 638-772): the error
check runs first; Gemini then checks the top-level safety block before any
token handling and may clear the first-chunk flag when tool-call parts are
echoed; the rest is the common tail. -/
def processData (ctx : Ctx) (s : SState) (o : Obj) : SState × Cmd :=
  match errTruthy o.err with
  | some m => ({ s with error_msg := "API error: " ++ m }, Cmd.brk)
  | none =>
    match ctx.provider with
    | Provider.gemini =>
      let ex := gemExtract o
      if (o.blockReason.getD "") ≠ "" then
        ({ s with error_msg := "Content blocked (reason: " ++ o.blockReason.getD "" ++ ")" },
         Cmd.brk)
      else
        let s1 := if ctx.enable_tools && hasToolParts o && s.first_chunk then
            { s with first_chunk := false } else s
        commonTail ctx s1 ex.1 "" ex.2
    | Provider.ollama =>
      let ex := ollamaExtract o
      commonTail ctx s ex.1 ex.2.1 ex.2.2
    | Provider.openai =>
      let ex := openaiExtract o
      commonTail ctx s ex.1 ex.2.1 ex.2.2

/-- One complete line as the loop classifies it (ai.py 621-636): a line that
produced a JSON object, the SSE DONE sentinel, or a skipped line (blank,
non-JSON noise, or a failed parse). -/
inductive Line
  | data (o : Obj)
  | done
  | skip

/-- Processing of one buffered line (ai.py 621-772). -/
def processLine (ctx : Ctx) (s : SState) : Line → SState × Cmd
  | Line.done => (s, Cmd.brk)
  | Line.skip => (s, Cmd.cont)
  | Line.data o => processData ctx s o

/-- The inner line-splitting loop (ai.py 617-772) over a list of buffered
complete lines: a break leaves the unconsumed suffix in the buffer. -/
def runLines (ctx : Ctx) : SState → List Line → SState × Option (List Line)
  | s, [] => (s, none)
  | s, l :: rest =>
    match processLine ctx s l with
    | (s', Cmd.brk) => (s', some rest)
    | (s', Cmd.cont) => runLines ctx s' rest

/-- The outer read loop (ai.py 604-772) over chunks of completed lines: each
chunk is appended to whatever the previous inner break left buffered, and
the loop only stops when the network stream is exhausted. -/
def runChunks (ctx : Ctx) : SState → List Line → List (List Line) → SState
  | s, _, [] => s
  | s, pending, c :: cs =>
    match runLines ctx s (pending ++ c) with
    | (s', some leftover) => runChunks ctx s' leftover cs
    | (s', none) => runChunks ctx s' [] cs

/-- Running a whole stream from the initial state. -/
def runStream (ctx : Ctx) (chunks : List (List Line)) : SState :=
  runChunks ctx initState [] chunks

/-- The truncation applied post-loop (ai.py 810-812). -/
def truncated_buffer (full_text : List Char) : List Char :=
  if full_text.length > MAX_MESSAGE_LENGTH then full_text.take MAX_MESSAGE_LENGTH
  else full_text

/-- Whether the truncation warning is emitted (ai.py 810-811). -/
def truncation_warning (full_text : List Char) : Bool :=
  full_text.length > MAX_MESSAGE_LENGTH

/-- Post-loop result assembly (ai.py 801-815): a captured error yields no
text; otherwise the buffer is truncated, stripped, and an all-stripped-empty
result becomes none. -/
def post_stream (error_msg : String) (full_text : List Char) : Option String :=
  if error_msg ≠ "" then none
  else
    let t := truncated_buffer full_text
    let clean := stripThink t
    if clean = [] then none else some ⟨clean⟩

/-- Final result of a stream run. -/
def stream_result (s : SState) : Option String :=
  post_stream s.error_msg s.full_text

/-- Convenience constructors for concrete stream objects. -/
def emptyObj : Obj :=
  { err := ErrField.absent, choices := [], message := ⟨none, none⟩, done := none,
    candidates := [], blockReason := none }

/-- An OpenAI-compatible line carrying one text delta. -/
def oTextObj (t : String) : Obj :=
  { emptyObj with choices := [⟨⟨some t, none⟩, none⟩] }

/-- A line carrying an error string. -/
def oErrStrObj (m : String) : Obj :=
  { emptyObj with err := ErrField.str m }

/-- A Gemini line carrying one text part and a finish reason. -/
def gTextFinObj (t fin : String) : Obj :=
  { emptyObj with candidates := [⟨some [⟨some t, false⟩], some fin, false⟩] }

/-- A Gemini line carrying a top-level promptFeedback.blockReason. -/
def gBlockObj (b : String) : Obj :=
  { emptyObj with blockReason := some b }

/-- Modelled from the words of claim C5 and spec section 4.2: trim with
offset 1 whenever a leading system Turn is present (with no condition on
the provider family), dropping the adjusted excess immediately after the
optional leading system Turn. Kept separate from truncate_history so the
two can be compared. -/
def trim_spec (history : List Turn) (alternation_required : Bool) : List Turn :=
  let offset : Nat := if headIsSystem history then 1 else 0
  if history.length ≤ MAX_HISTORY_MESSAGES + offset then history
  else
    let excess := history.length - (MAX_HISTORY_MESSAGES + offset)
    let excess2 := if alternation_required && excess % 2 == 1 then excess + 1 else excess
    history.take offset ++ history.drop (offset + excess2)

theorem leadsWith_length {p s : List Char} (h : leadsWith p s = true) :
    p.length ≤ s.length := by
  induction p generalizing s with
  | nil => simp
  | cons a p ih =>
    cases s with
    | nil => simp [leadsWith] at h
    | cons b s =>
      simp only [leadsWith, Bool.and_eq_true] at h
      simpa using ih h.2

theorem findSub_le {p s : List Char} {i : Nat} (h : findSub p s = some i) :
    i + p.length ≤ s.length := by
  induction s generalizing i with
  | nil =>
    simp only [findSub] at h
    split at h
    · cases h
      have := leadsWith_length (by assumption)
      simp only [List.length_nil] at this ⊢
      omega
    · cases h
  | cons b s ih =>
    simp only [findSub] at h
    split at h
    · cases h
      simpa using leadsWith_length (by assumption)
    · simp only [Option.map_eq_some'] at h
      obtain ⟨j, hj, rfl⟩ := h
      have := ih hj
      simp only [List.length_cons]
      omega

theorem leadsWith_append (p t : List Char) : leadsWith p (p ++ t) = true := by
  induction p with
  | nil => rfl
  | cons a p ih =>
    show (a == a && leadsWith p (p ++ t)) = true
    simp [ih]

theorem findSub_self_append (p t : List Char) : findSub p (p ++ t) = some 0 := by
  cases p with
  | nil => cases t <;> rfl
  | cons a p =>
    have h := leadsWith_append (a :: p) t
    simp only [List.cons_append] at h
    simp [findSub, h]

theorem findSub_gt {a : List Char} (c : Char) (b : List Char) (h : c ∉ a) :
    findSub [c] (a ++ c :: b) = some a.length := by
  induction a with
  | nil => simp [findSub, leadsWith]
  | cons x a ih =>
    have hx : ¬ (c = x) := by
      intro hc
      exact h (by simp [hc])
    have ha : c ∉ a := by
      intro hc
      exact h (by simp [hc])
    simp [findSub, leadsWith, hx, ih ha]

theorem drop_len_append (a b : List Char) (n : Nat) (h : a.length = n) :
    (a ++ b).drop n = b := by
  subst h
  exact List.drop_left a b

theorem stripRem3_lt {rem rem2 rem3 : List Char} {start close : Nat}
    (h1 : findSub openPat rem = some start)
    (h2 : rem2 = (match findSub gtPat (rem.drop (start + 6)) with
        | some b => (rem.drop (start + 6)).drop (b + 1)
        | none => ([] : List Char)))
    (h3 : findSub closePat rem2 = some close)
    (h4 : rem3 = (match findSub gtPat (rem2.drop (close + 7)) with
        | some b2 => (rem2.drop (close + 7)).drop (b2 + 1)
        | none => ([] : List Char))) :
    rem3.length < rem.length := by
  have l1 := findSub_le h1
  have l3 := findSub_le h3
  have hop : openPat.length = 6 := rfl
  have hcp : closePat.length = 7 := rfl
  rw [hop] at l1
  rw [hcp] at l3
  have hr2 : rem2.length ≤ rem.length - (start + 6) := by
    subst h2
    split
    · simp only [List.length_drop]
      omega
    · simp
  have hr3 : rem3.length ≤ rem2.length - (close + 7) := by
    subst h4
    split
    · simp only [List.length_drop]
      omega
    · simp
  omega

theorem stripThinkF_fuel :
    ∀ (n : Nat) (rem : List Char), rem.length ≤ n →
      ∀ f g, rem.length < f → rem.length < g →
        stripThinkF f rem = stripThinkF g rem := by
  intro n
  induction n with
  | zero =>
    intro rem hle f g hf hg
    cases f with
    | zero => omega
    | succ f =>
      cases g with
      | zero => omega
      | succ g =>
        have : rem = [] := List.length_eq_zero.mp (by omega)
        subst this
        rfl
  | succ n ih =>
    intro rem hle f g hf hg
    cases f with
    | zero => omega
    | succ f =>
      cases g with
      | zero => omega
      | succ g =>
        simp only [stripThinkF]
        cases h1 : findSub openPat rem with
        | none => rfl
        | some start =>
          simp only []
          cases h3 : findSub closePat
              (match findSub gtPat (rem.drop (start + 6)) with
                | some b => (rem.drop (start + 6)).drop (b + 1)
                | none => ([] : List Char)) with
          | none => rfl
          | some close =>
            simp only []
            congr 1
            have hlt := stripRem3_lt h1 rfl h3 rfl
            exact ih _ (by omega) f g (by omega) (by omega)

theorem stripThink_eq (rem : List Char) : stripThink rem =
    (match findSub openPat rem with
     | none => rem
     | some start =>
       let after_open := rem.drop (start + 6)
       let rem2 := match findSub gtPat after_open with
         | some b => after_open.drop (b + 1)
         | none => []
       match findSub closePat rem2 with
       | none => rem.take start
       | some close =>
         let after_close := rem2.drop (close + 7)
         let rem3 := match findSub gtPat after_close with
           | some b2 => after_close.drop (b2 + 1)
           | none => []
         rem.take start ++ stripThink rem3) := by
  unfold stripThink
  conv_lhs => simp only [stripThinkF]
  cases h1 : findSub openPat rem with
  | none => rfl
  | some start =>
    simp only []
    cases h3 : findSub closePat
        (match findSub gtPat (rem.drop (start + 6)) with
          | some b => (rem.drop (start + 6)).drop (b + 1)
          | none => ([] : List Char)) with
    | none => rfl
    | some close =>
      simp only []
      congr 1
      have hlt := stripRem3_lt h1 rfl h3 rfl
      exact stripThinkF_fuel rem.length _ (by omega) _ _ (by omega) (by omega)

theorem stripThink_no_open {rem : List Char} (h : findSub openPat rem = none) :
    stripThink rem = rem := by
  rw [stripThink_eq, h]

theorem tagAfter_lt_close {rem after : List Char} {close : Nat}
    (h : findSub closePat rem = some close)
    (ha : after = (match findSub gtPat (rem.drop (close + 7)) with
        | some b => (rem.drop (close + 7)).drop (b + 1)
        | none => ([] : List Char))) :
    after.length < rem.length := by
  have l := findSub_le h
  have hcp : closePat.length = 7 := rfl
  rw [hcp] at l
  have : after.length ≤ rem.length - (close + 7) := by
    subst ha
    split
    · simp only [List.length_drop]
      omega
    · simp
  omega

theorem tagAfter_lt_open {rem after : List Char} {o : Nat}
    (h : findSub openPat rem = some o)
    (ha : after = (match findSub gtPat (rem.drop (o + 6)) with
        | some b => (rem.drop (o + 6)).drop (b + 1)
        | none => ([] : List Char))) :
    after.length < rem.length := by
  have l := findSub_le h
  have hop : openPat.length = 6 := rfl
  rw [hop] at l
  have : after.length ≤ rem.length - (o + 6) := by
    subst ha
    split
    · simp only [List.length_drop]
      omega
    · simp
  omega

theorem tagLoopF_fuel :
    ∀ (n : Nat) (rem : List Char), rem.length ≤ n →
      ∀ (et isT inD : Bool) (f g : Nat), rem.length < f → rem.length < g →
        tagLoopF et f isT inD rem = tagLoopF et g isT inD rem := by
  intro n
  induction n with
  | zero =>
    intro rem hle et isT inD f g hf hg
    cases f with
    | zero => omega
    | succ f =>
      cases g with
      | zero => omega
      | succ g =>
        have : rem = [] := List.length_eq_zero.mp (by omega)
        subst this
        rfl
  | succ n ih =>
    intro rem hle et isT inD f g hf hg
    cases f with
    | zero => omega
    | succ f =>
      cases g with
      | zero => omega
      | succ g =>
        simp only [tagLoopF]
        by_cases hrem : rem = []
        · simp [hrem]
        · simp only [if_neg hrem]
          cases isT with
          | true =>
            cases h1 : findSub closePat rem with
            | none => simp [h1]
            | some close =>
              have hlt := tagAfter_lt_close h1 rfl
              have heq := ih (match findSub gtPat (rem.drop (close + 7)) with
                  | some b => (rem.drop (close + 7)).drop (b + 1)
                  | none => ([] : List Char)) (by omega) et false false f g
                  (by omega) (by omega)
              simp at heq
              simp [h1, heq]
          | false =>
            cases h1 : findSub openPat rem with
            | none => simp [h1]
            | some o =>
              have hlt := tagAfter_lt_open h1 rfl
              have heq := ih (match findSub gtPat (rem.drop (o + 6)) with
                  | some b => (rem.drop (o + 6)).drop (b + 1)
                  | none => ([] : List Char)) (by omega) et true (if et then true else inD)
                  f g (by omega) (by omega)
              simp at heq
              simp [h1, heq]

theorem tagLoop_eq (et isT inD : Bool) (rem : List Char) : tagLoop et isT inD rem =
    (if rem = [] then (isT, inD, [], [])
     else if isT then
      match findSub closePat rem with
      | some close =>
        let before := rem.take close
        let after0 := rem.drop (close + 7)
        let after := match findSub gtPat after0 with
          | some b => after0.drop (b + 1)
          | none => []
        let r := tagLoop et false false after
        (r.1, r.2.1, r.2.2.1, (if et then before else []) ++ r.2.2.2)
      | none => (true, inD, [], if et then rem else [])
     else
      match findSub openPat rem with
      | some o =>
        let before := rem.take o
        let after0 := rem.drop (o + 6)
        let after := match findSub gtPat after0 with
          | some b => after0.drop (b + 1)
          | none => []
        let r := tagLoop et true (if et then true else inD) after
        (r.1, r.2.1, before ++ r.2.2.1, (if et then openPat else []) ++ r.2.2.2)
      | none => (false, false, rem, [])) := by
  show tagLoopF et (rem.length + 1) isT inD rem = _
  simp only [tagLoopF]
  by_cases hrem : rem = []
  · simp [hrem, tagLoop, tagLoopF]
  · simp only [if_neg hrem]
    cases isT with
    | true =>
      cases h1 : findSub closePat rem with
      | none => simp [h1]
      | some close =>
        have hlt := tagAfter_lt_close h1 rfl
        have heq := tagLoopF_fuel rem.length
            (match findSub gtPat (rem.drop (close + 7)) with
              | some b => (rem.drop (close + 7)).drop (b + 1)
              | none => ([] : List Char)) (by omega) et false false rem.length
            ((match findSub gtPat (rem.drop (close + 7)) with
              | some b => (rem.drop (close + 7)).drop (b + 1)
              | none => ([] : List Char)).length + 1) (by omega) (by omega)
        simp at heq
        simp [h1, heq, tagLoop]
    | false =>
      cases h1 : findSub openPat rem with
      | none => simp [h1]
      | some o =>
        have hlt := tagAfter_lt_open h1 rfl
        have heq := tagLoopF_fuel rem.length
            (match findSub gtPat (rem.drop (o + 6)) with
              | some b => (rem.drop (o + 6)).drop (b + 1)
              | none => ([] : List Char)) (by omega) et true (if et then true else inD)
            rem.length
            ((match findSub gtPat (rem.drop (o + 6)) with
              | some b => (rem.drop (o + 6)).drop (b + 1)
              | none => ([] : List Char)).length + 1) (by omega) (by omega)
        simp at heq
        simp [h1, heq, tagLoop]

theorem tagLoop_no_open {rem : List Char} (et : Bool)
    (h : findSub openPat rem = none) :
    tagLoop et false false rem = (false, false, rem, []) := by
  rw [tagLoop_eq]
  by_cases hrem : rem = []
  · simp [hrem]
  · simp [hrem, h]

theorem append_left_ne_empty (a b : String) (h : a.data ≠ []) : a ++ b ≠ "" := by
  intro hc
  apply h
  have hd := congrArg String.data hc
  rw [String.data_append] at hd
  exact List.append_eq_nil.mp hd |>.1

theorem append3_ne_empty (a b c : String) (h : a.data ≠ []) : a ++ b ++ c ≠ "" := by
  apply append_left_ne_empty
  rw [String.data_append]
  intro hc
  exact h (List.append_eq_nil.mp hc).1

theorem updFinish_error (s : SState) (f : String) :
    (updFinish s f).error_msg = s.error_msg := by
  unfold updFinish
  split <;> rfl

theorem updFirstChunk_error (s : SState) (tt tk : String) :
    (updFirstChunk s tt tk).error_msg = s.error_msg := by
  unfold updFirstChunk
  split <;> rfl

theorem updThink_error (et : Bool) (s : SState) (tk : String) :
    (updThink et s tk).error_msg = s.error_msg := by
  unfold updThink
  split <;> rfl

theorem updText_error (et : Bool) (s : SState) (tt : String) :
    (updText et s tt).error_msg = s.error_msg := by
  unfold updText
  split <;> rfl

theorem commonTailChecks_error_mono (ctx : Ctx) (s4 : SState)
    (h : s4.error_msg ≠ "") : (commonTailChecks ctx s4).1.error_msg ≠ "" := by
  unfold commonTailChecks
  split_ifs <;> first
    | exact h
    | exact append3_ne_empty _ _ _ (by decide)

theorem commonTail_error_mono (ctx : Ctx) (s : SState) (tt tk fin : String)
    (h : s.error_msg ≠ "") : (commonTail ctx s tt tk fin).1.error_msg ≠ "" := by
  unfold commonTail
  apply commonTailChecks_error_mono
  rw [updText_error, updThink_error, updFirstChunk_error, updFinish_error]
  exact h

theorem processData_error_mono (ctx : Ctx) (s : SState) (o : Obj)
    (h : s.error_msg ≠ "") : (processData ctx s o).1.error_msg ≠ "" := by
  unfold processData
  cases errTruthy o.err with
  | some m =>
    exact append_left_ne_empty _ _ (by decide)
  | none =>
    cases hp : ctx.provider with
    | gemini =>
      simp only []
      split
      · exact append3_ne_empty _ _ _ (by decide)
      · split
        · exact commonTail_error_mono _ _ _ _ _ h
        · exact commonTail_error_mono _ _ _ _ _ h
    | ollama => exact commonTail_error_mono _ _ _ _ _ h
    | openai => exact commonTail_error_mono _ _ _ _ _ h

theorem processLine_error_mono (ctx : Ctx) (s : SState) (l : Line)
    (h : s.error_msg ≠ "") : (processLine ctx s l).1.error_msg ≠ "" := by
  cases l with
  | data o => exact processData_error_mono ctx s o h
  | done => exact h
  | skip => exact h

theorem runLines_error_mono (ctx : Ctx) :
    ∀ (ls : List Line) (s : SState), s.error_msg ≠ "" →
      (runLines ctx s ls).1.error_msg ≠ "" := by
  intro ls
  induction ls with
  | nil => intro s h; exact h
  | cons l rest ih =>
    intro s h
    simp only [runLines]
    have hm := processLine_error_mono ctx s l h
    cases hc : processLine ctx s l with
    | mk s' c =>
      rw [hc] at hm
      cases c with
      | brk => exact hm
      | cont => exact ih s' hm

theorem runChunks_error_mono (ctx : Ctx) :
    ∀ (cs : List (List Line)) (s : SState) (pending : List Line), s.error_msg ≠ "" →
      (runChunks ctx s pending cs).error_msg ≠ "" := by
  intro cs
  induction cs with
  | nil => intro s pending h; exact h
  | cons c cs ih =>
    intro s pending h
    simp only [runChunks]
    have hm := runLines_error_mono ctx (pending ++ c) s h
    cases hc : runLines ctx s (pending ++ c) with
    | mk s' left =>
      rw [hc] at hm
      cases left with
      | some leftover => exact ih s' leftover hm
      | none => exact ih s' [] hm

theorem stream_result_of_error {s : SState} (h : s.error_msg ≠ "") :
    stream_result s = none := by
  simp [stream_result, post_stream, h]

theorem updFinish_full_text (s : SState) (f : String) :
    (updFinish s f).full_text = s.full_text := by
  unfold updFinish
  split <;> rfl

theorem updFirstChunk_full_text (s : SState) (tt tk : String) :
    (updFirstChunk s tt tk).full_text = s.full_text := by
  unfold updFirstChunk
  split <;> rfl

theorem updThink_full_text (et : Bool) (s : SState) (tk : String) :
    (updThink et s tk).full_text = s.full_text := by
  unfold updThink
  split <;> rfl

theorem updText_full_text (et : Bool) (s : SState) (tt : String) :
    (updText et s tt).full_text = s.full_text ++ tt.data := by
  unfold updText
  split
  · rfl
  · next hne =>
    have : tt = "" := by
      by_contra hc
      exact hne hc
    subst this
    simp

theorem updFirstChunk_finish (s : SState) (tt tk : String) :
    (updFirstChunk s tt tk).finish_reason = s.finish_reason := by
  unfold updFirstChunk
  split <;> rfl

theorem updThink_finish (et : Bool) (s : SState) (tk : String) :
    (updThink et s tk).finish_reason = s.finish_reason := by
  unfold updThink
  split <;> rfl

theorem updText_finish (et : Bool) (s : SState) (tt : String) :
    (updText et s tt).finish_reason = s.finish_reason := by
  unfold updText
  split <;> rfl

/-- C3 counterexample: the Tag Stripper is not idempotent. Stripping
the string below removes its inner region and splices the surrounding
characters into a fresh opening marker, so a second strip removes more. -/
theorem claim3_counterexample :
    strip_think_tags (strip_think_tags "<th<think>x</think>ink>") ≠
      strip_think_tags "<th<think>x</think>ink>" := by decide

/-- C3 (amended): the Tag Stripper is idempotent on every string whose
stripped result contains no occurrence of the opening marker; rescanning
such an output is a no-op. -/
theorem claim3_idempotent_no_marker (s : List Char)
    (h : findSub openPat (stripThink s) = none) :
    stripThink (stripThink s) = stripThink s :=
  stripThink_no_open h

/-- Witness for claim3_idempotent_no_marker at a concrete input. -/
theorem claim3_idempotent_no_marker_witness :
    findSub openPat (stripThink "a<think>b</think>c".data) = none ∧
    stripThink (stripThink "a<think>b</think>c".data) =
      stripThink "a<think>b</think>c".data :=
  ⟨by decide, claim3_idempotent_no_marker _ (by decide)⟩

/-- C4 (confirmed): feeding the three text-delta tokens of the claim, with
reasoning display off and no error or abnormal finish, yields the final
returned visible text vis, and the caller stores exactly that text in the
new assistant turn. -/
theorem claim4_split_tokens (hist : List Turn) :
    stream_result (runStream ⟨Provider.openai, false, false⟩
      [[Line.data (oTextObj "<th")], [Line.data (oTextObj "ink>hidden</thi")],
       [Line.data (oTextObj "nk>vis")]]) = some "vis"
    ∧ commit true hist (some "vis") = hist ++ [⟨Role.assistant, Content.str "vis"⟩] := by
  constructor
  · decide
  · rfl

/-- C5 counterexample: on a Gemini-family history of 22 turns headed by a
system turn, truncate_history ignores the system head when computing the
offset (the code also requires the OpenAI-compatible flag) and drops from
the very front, while the claimed rule would keep the system turn. -/
theorem claim5_counterexample :
    truncate_history
      (⟨Role.system, Content.str ""⟩ :: List.replicate 21 ⟨Role.user, Content.str ""⟩)
      false ≠
    trim_spec
      (⟨Role.system, Content.str ""⟩ :: List.replicate 21 ⟨Role.user, Content.str ""⟩)
      true := by decide

/-- C5 (amended): trim returns the history unchanged when its length is at
most maxTurns plus offset, where the offset is 1 exactly when the family is
OpenAI-compatible AND a leading system turn is present (for the Gemini
family the offset is always 0, so a leading system turn is dropped like any
other turn); otherwise it keeps the first offset turns and drops the excess
(incremented by one when the Gemini family is active and the excess is odd)
right after them. The dropped count is always even for the Gemini family. -/
theorem claim5_trim_characterisation (h : List Turn) (compat : Bool) :
    (truncate_history h compat =
      (let off : Nat := if compat && headIsSystem h then 1 else 0
       if h.length ≤ MAX_HISTORY_MESSAGES + off then h
       else
         let e := h.length - (MAX_HISTORY_MESSAGES + off)
         let e2 := if !compat && e % 2 == 1 then e + 1 else e
         h.take off ++ h.drop (off + e2)))
    ∧ 2 ∣ (h.length - (truncate_history h false).length) := by
  constructor
  · unfold truncate_history
    by_cases hc : (compat && headIsSystem h) = true <;> simp [hc]
  · unfold truncate_history
    simp only [Bool.false_and, Bool.false_eq_true, if_false, Nat.add_zero]
    split
    · simp
    · next hlen =>
      split
      · next habs => exact absurd habs (by decide)
      · next =>
        split
        · next hodd =>
          simp only [Bool.not_false, Bool.true_and, beq_iff_eq] at hodd
          simp only [List.length_drop]
          simp only [MAX_HISTORY_MESSAGES] at hlen hodd ⊢
          omega
        · next hodd =>
          simp only [Bool.not_false, Bool.true_and, Bool.not_eq_true,
            beq_eq_false_iff_ne] at hodd
          simp only [List.length_drop]
          simp only [MAX_HISTORY_MESSAGES] at hlen hodd ⊢
          omega

/-- C7 (confirmed): rollback removes the last turn exactly when it carries
the user role, and otherwise leaves the conversation unchanged. -/
theorem claim7_rollback (h : List Turn) (t : Turn) :
    rollback_user (h ++ [t]) = if t.role = Role.user then h else h ++ [t] := by
  unfold rollback_user
  rw [List.getLast?_concat]
  simp [List.dropLast_concat]

/-- C9 (confirmed): whitespace-only input with an image attached is not
skipped and is replaced by the fixed default image prompt. -/
theorem claim9_default_image_prompt (raw : List Char) (h : pyStrip raw = []) :
    effective_user_input raw true = some DEFAULT_IMAGE_PROMPT.data := by
  simp [effective_user_input, h]

/-- Witness for claim9_default_image_prompt at a concrete input. -/
theorem claim9_default_image_prompt_witness :
    pyStrip "   ".data = [] ∧
    effective_user_input "   ".data true = some DEFAULT_IMAGE_PROMPT.data :=
  ⟨by decide, claim9_default_image_prompt _ (by decide)⟩

/-- C1 counterexample: after a line carrying an object-level error in the
first chunk, a text-delta line arriving in a later chunk is still consumed
by the loop (the break only leaves the inner line-splitting loop), so its
token reaches full_text and the visible sink; the final result is still the
error result. -/
theorem claim1_counterexample :
    (runStream ⟨Provider.openai, false, false⟩
      [[Line.data (oErrStrObj "boom")], [Line.data (oTextObj "B")]]).full_text = "B".data
    ∧ (runStream ⟨Provider.openai, false, false⟩
      [[Line.data (oErrStrObj "boom")], [Line.data (oTextObj "B")]]).vis = "B".data
    ∧ (runStream ⟨Provider.openai, false, false⟩
      [[Line.data (oErrStrObj "boom")], [Line.data (oTextObj "B")]]).error_msg
        = "API error: boom"
    ∧ stream_result (runStream ⟨Provider.openai, false, false⟩
      [[Line.data (oErrStrObj "boom")], [Line.data (oTextObj "B")]]) = none := by
  exact ⟨by decide, by decide, by decide, by decide⟩

/-- C1 (amended): a line whose object carries a truthy error field makes the
loop capture the message into the error slot and leave the inner
line-splitting loop immediately; lines arriving in later read chunks are
still consumed, but the error slot, once non-empty, survives every later
line, so the final result is always the error result: no usable text is
returned and the caller rolls back instead of recording an assistant turn. -/
theorem claim1_error_capture (ctx : Ctx) (s : SState) (o : Obj) (m : String)
    (compat : Bool) (hist : List Turn) (s₂ : SState)
    (pending : List Line) (cs : List (List Line))
    (ho : errTruthy o.err = some m) (hs₂ : s₂.error_msg ≠ "") :
    processData ctx s o = ({ s with error_msg := "API error: " ++ m }, Cmd.brk)
    ∧ stream_result (runChunks ctx s₂ pending cs) = none
    ∧ commit compat hist none = rollback_user hist := by
  refine ⟨?_, ?_, rfl⟩
  · unfold processData
    rw [ho]
  · exact stream_result_of_error (runChunks_error_mono ctx cs s₂ pending hs₂)

/-- Witness for claim1_error_capture at a concrete error line and stream. -/
theorem claim1_error_capture_witness :
    processData ⟨Provider.openai, false, false⟩ initState (oErrStrObj "boom") =
      ({ initState with error_msg := "API error: " ++ "boom" }, Cmd.brk)
    ∧ stream_result (runChunks ⟨Provider.openai, false, false⟩
        { initState with error_msg := "API error: boom" } []
        [[Line.data (oTextObj "B")]]) = none
    ∧ commit true [] none = rollback_user [] :=
  claim1_error_capture ⟨Provider.openai, false, false⟩ initState (oErrStrObj "boom")
    "boom" true [] { initState with error_msg := "API error: boom" } []
    [[Line.data (oTextObj "B")]] (by decide) (by decide)

/-- C2 counterexample: the opening marker split as <th and ink>x across two
text-delta tokens is not detected, with reasoning display off both fragments
are written to the visible sink, which therefore shows the whole marker and
the tag-region text. -/
theorem claim2_counterexample :
    (runStream ⟨Provider.openai, false, false⟩
      [[Line.data (oTextObj "<th")], [Line.data (oTextObj "ink>x")]]).vis
      = "<think>x".data
    ∧ findSub "<th".data
        (runStream ⟨Provider.openai, false, false⟩
          [[Line.data (oTextObj "<th")], [Line.data (oTextObj "ink>x")]]).vis ≠ none := by
  exact ⟨by decide, by decide⟩

/-- C2 (amended): the inline sub-machine keeps only the inside-tag flag
across tokens, not a partially matched marker prefix, so a marker split
across two consecutive tokens is never detected: outside a tag region, any
pair of tokens in which neither contains the full opening marker passes
through to the visible sink verbatim, fragments of a split marker included
(only the post-stream Tag Stripper removes the region from the returned
text). -/
theorem claim2_no_partial_state (t1 t2 : List Char)
    (h1 : findSub openPat t1 = none) (h2 : findSub openPat t2 = none) :
    feedTokens false (false, false) [t1, t2] = ((false, false), t1 ++ t2, []) := by
  simp [feedTokens, feedText, tagLoop_no_open false h1, tagLoop_no_open false h2]

/-- Witness for claim2_no_partial_state at the split-marker tokens. -/
theorem claim2_no_partial_state_witness :
    findSub openPat "<th".data = none ∧ findSub openPat "ink>x".data = none ∧
    feedTokens false (false, false) ["<th".data, "ink>x".data] =
      ((false, false), "<th".data ++ "ink>x".data, []) :=
  ⟨by decide, by decide,
   claim2_no_partial_state "<th".data "ink>x".data (by decide) (by decide)⟩

theorem findSub_gtPat (a b : List Char) (h : ('>' : Char) ∉ a) :
    findSub gtPat (a ++ '>' :: b) = some a.length :=
  findSub_gt '>' b h

/-- C10 (confirmed): both the Tag Stripper and the streaming tag machine
accept arbitrary bracket-free characters between the marker name and the
closing bracket, in the closing marker as well as the opening one: within
one scan, an occurrence of the closing marker name followed by any such
span and a bracket ends the reasoning region, the span is discarded, and
processing resumes outside the region on the remainder. -/
theorem claim10_marker_attribute_spans (amid cmid rest : List Char) (et d : Bool)
    (ha : ('>' : Char) ∉ amid) (hc : ('>' : Char) ∉ cmid) :
    stripThink (openPat ++ (amid ++ '>' :: (closePat ++ (cmid ++ '>' :: rest))))
      = stripThink rest
    ∧ tagLoop et true d (closePat ++ (cmid ++ '>' :: rest)) = tagLoop et false false rest := by
  have e5 : findSub closePat (closePat ++ (cmid ++ '>' :: rest)) = some 0 :=
    findSub_self_append _ _
  have e6 : (closePat ++ (cmid ++ '>' :: rest)).drop (0 + 7) = cmid ++ '>' :: rest :=
    drop_len_append _ _ _ rfl
  have e7 : findSub gtPat (cmid ++ '>' :: rest) = some cmid.length := findSub_gtPat _ _ hc
  have e8 : (cmid ++ '>' :: rest).drop (cmid.length + 1) = rest := by
    rw [List.append_cons]
    exact drop_len_append _ _ _ (by simp)
  constructor
  · have e1 : findSub openPat
        (openPat ++ (amid ++ '>' :: (closePat ++ (cmid ++ '>' :: rest)))) = some 0 :=
      findSub_self_append _ _
    have e2 : (openPat ++ (amid ++ '>' :: (closePat ++ (cmid ++ '>' :: rest)))).drop (0 + 6)
        = amid ++ '>' :: (closePat ++ (cmid ++ '>' :: rest)) := drop_len_append _ _ _ rfl
    have e3 : findSub gtPat (amid ++ '>' :: (closePat ++ (cmid ++ '>' :: rest)))
        = some amid.length := findSub_gtPat _ _ ha
    have e4 : (amid ++ '>' :: (closePat ++ (cmid ++ '>' :: rest))).drop (amid.length + 1)
        = closePat ++ (cmid ++ '>' :: rest) := by
      rw [List.append_cons]
      exact drop_len_append _ _ _ (by simp)
    rw [stripThink_eq]
    simp only [e1, e2, e3, e4, e5, e6, e7, e8, List.take_zero, List.nil_append]
  · have hne : closePat ++ (cmid ++ '>' :: rest) ≠ [] := by simp [closePat]
    rw [tagLoop_eq]
    simp only [if_neg hne, e5, e6, e7, e8, List.take_zero, ite_self, List.nil_append,
      if_pos rfl, if_true, Prod.mk.eta]

/-- Witness for claim10_marker_attribute_spans: the closing marker written
as an attribute-carrying close ends the region and the span is dropped. -/
theorem claim10_marker_attribute_spans_witness :
    (('>' : Char) ∉ ['x']) ∧ (('>' : Char) ∉ "ing".data) ∧
    (stripThink (openPat ++ (['x'] ++ '>' :: (closePat ++ ("ing".data ++ '>' :: ['r']))))
        = stripThink ['r']
     ∧ tagLoop false true false (closePat ++ ("ing".data ++ '>' :: ['r']))
        = tagLoop false false false ['r']) :=
  ⟨by decide, by decide,
   claim10_marker_attribute_spans ['x'] "ing".data ['r'] false false
     (by decide) (by decide)⟩

theorem findSub_openPat_replicate (n : Nat) :
    findSub openPat (List.replicate n 'a') = none := by
  induction n with
  | zero => rfl
  | succ n ih =>
    have hb : (('<' : Char) == 'a') = false := by decide
    simp only [List.replicate_succ, findSub]
    rw [show leadsWith openPat ('a' :: List.replicate n 'a')
        = (('<' : Char) == 'a' && leadsWith ['t', 'h', 'i', 'n', 'k'] (List.replicate n 'a'))
      from rfl]
    simp [hb, ih]

/-- C8 (confirmed): a visible buffer longer than the ceiling triggers the
warning and is cut to exactly MAX_MESSAGE_LENGTH characters before the Tag
Stripper runs; when the truncated buffer contains no opening marker the
returned text is exactly the truncated buffer and the committed assistant
turn stores it. -/
theorem claim8_truncation (ft : List Char) (hist : List Turn)
    (hlen : ft.length = MAX_MESSAGE_LENGTH + 500) :
    truncation_warning ft = true
    ∧ (truncated_buffer ft).length = MAX_MESSAGE_LENGTH
    ∧ (findSub openPat (truncated_buffer ft) = none →
        post_stream "" ft = some ⟨truncated_buffer ft⟩
        ∧ commit true hist (some ⟨truncated_buffer ft⟩) =
            hist ++ [⟨Role.assistant, Content.str ⟨truncated_buffer ft⟩⟩]) := by
  have hgt : ft.length > MAX_MESSAGE_LENGTH := by omega
  have htb : truncated_buffer ft = ft.take MAX_MESSAGE_LENGTH := by
    unfold truncated_buffer
    rw [if_pos hgt]
  have htblen : (truncated_buffer ft).length = MAX_MESSAGE_LENGTH := by
    rw [htb, List.length_take]
    omega
  refine ⟨?_, htblen, ?_⟩
  · unfold truncation_warning
    simp only [decide_eq_true_eq]
    exact hgt
  · intro hm
    have hstrip : stripThink (truncated_buffer ft) = truncated_buffer ft :=
      stripThink_no_open hm
    have hne : truncated_buffer ft ≠ [] := by
      intro hcon
      rw [hcon] at htblen
      simp [MAX_MESSAGE_LENGTH] at htblen
    constructor
    · unfold post_stream
      rw [if_neg (by simp)]
      simp only [truncated_buffer] at hstrip ⊢
      rw [hstrip]
      rw [if_neg (by simpa [truncated_buffer] using hne)]
    · have hmk : (⟨truncated_buffer ft⟩ : String) ≠ "" := by
        intro hcon
        apply hne
        have := congrArg String.data hcon
        simpa using this
      simp only [commit]
      rw [if_neg hmk, if_true]

/-- Witness for claim8_truncation: a buffer of MAX plus 500 letters. -/
theorem claim8_truncation_witness :
    truncation_warning (List.replicate 50500 'a') = true
    ∧ (truncated_buffer (List.replicate 50500 'a')).length = MAX_MESSAGE_LENGTH
    ∧ (post_stream "" (List.replicate 50500 'a')
          = some ⟨truncated_buffer (List.replicate 50500 'a')⟩
       ∧ commit true [] (some ⟨truncated_buffer (List.replicate 50500 'a')⟩) =
            [] ++ [⟨Role.assistant, Content.str ⟨truncated_buffer (List.replicate 50500 'a')⟩⟩]) := by
  have hrep : truncated_buffer (List.replicate 50500 'a') = List.replicate 50000 'a' := by
    unfold truncated_buffer
    rw [if_pos ?pos]
    case pos =>
      rw [List.length_replicate]
      simp only [MAX_MESSAGE_LENGTH]
      omega
    rw [List.take_replicate]
    congr 1
  have hm : findSub openPat (truncated_buffer (List.replicate 50500 'a')) = none := by
    rw [hrep]
    exact findSub_openPat_replicate 50000
  obtain ⟨w1, w2, w3⟩ := claim8_truncation (List.replicate 50500 'a') []
    (by rw [List.length_replicate]; simp only [MAX_MESSAGE_LENGTH])
  exact ⟨w1, w2, w3 hm⟩

/-- C6 counterexample: after a Gemini line delivering text A together with
the abnormal finish SAFETY, a text line in a later read chunk is still
consumed (the break only leaves the inner line loop), so the run does not
end at the abnormal signal: the final buffer holds AB and the stream result
is the accumulated text. -/
theorem claim6_counterexample :
    (runStream ⟨Provider.gemini, false, false⟩
      [[Line.data (gTextFinObj "A" "SAFETY")], [Line.data (gTextFinObj "B" "")]]).full_text
      = "AB".data
    ∧ (runStream ⟨Provider.gemini, false, false⟩
      [[Line.data (gTextFinObj "A" "SAFETY")], [Line.data (gTextFinObj "B" "")]]).error_msg
      = ""
    ∧ stream_result (runStream ⟨Provider.gemini, false, false⟩
      [[Line.data (gTextFinObj "A" "SAFETY")], [Line.data (gTextFinObj "B" "")]])
      = some "AB" := by
  exact ⟨by decide, by decide, by decide⟩

/-- C6 (amended): for the Gemini stream, when the stored finish signal
becomes one of the three abnormal values on a line, processing of that line
ends the inner buffered-line loop; the error slot is set exactly when the
visible buffer including that line is still empty (so the final result is
the error result in that case), while with text accumulated no error is set
but reading continues with later chunks; a truthy top-level block reason
sets the error immediately regardless of accumulated text; and a non-empty
error slot survives to the end of the stream, forcing the error result. -/
theorem claim6_gemini_signals (s s₂ : SState) (a fin b : String)
    (pending : List Line) (cs : List (List Line)) (et tools : Bool)
    (hfin : fin = "SAFETY" ∨ fin = "RECITATION" ∨ fin = "OTHER")
    (hsf : s.finish_reason = "") (hse : s.error_msg = "")
    (hb : b ≠ "") (hs₂ : s₂.error_msg ≠ "") :
    ((processData ⟨Provider.gemini, tools, et⟩ s (gTextFinObj a fin)).2 = Cmd.brk
     ∧ (processData ⟨Provider.gemini, tools, et⟩ s (gTextFinObj a fin)).1.error_msg =
         (if s.full_text ++ a.data = [] then
            "Stream ended by API (reason: " ++ fin ++ ")" else ""))
    ∧ processData ⟨Provider.gemini, tools, et⟩ s (gBlockObj b) =
        ({ s with error_msg := "Content blocked (reason: " ++ b ++ ")" }, Cmd.brk)
    ∧ stream_result (runChunks ⟨Provider.gemini, tools, et⟩ s₂ pending cs) = none := by
  have hfne : fin ≠ "" := by rcases hfin with rfl | rfl | rfl <;> decide
  have hab : abnormalFinish fin = true := by rcases hfin with rfl | rfl | rfl <;> rfl
  have hred : processData ⟨Provider.gemini, tools, et⟩ s (gTextFinObj a fin) =
      commonTail ⟨Provider.gemini, tools, et⟩ s a "" fin := by
    simp [processData, gTextFinObj, emptyObj, errTruthy, chunkErr, gemExtract, hasToolParts]
  have h4e : (updText et (updThink et (updFirstChunk (updFinish s fin) a "") "") a).error_msg
      = "" := by
    rw [updText_error, updThink_error, updFirstChunk_error, updFinish_error]
    exact hse
  have h4f : (updText et (updThink et (updFirstChunk (updFinish s fin) a "") "") a).finish_reason
      = fin := by
    rw [updText_finish, updThink_finish, updFirstChunk_finish]
    unfold updFinish
    rw [if_pos ⟨hfne, hsf⟩]
  have h4t : (updText et (updThink et (updFirstChunk (updFinish s fin) a "") "") a).full_text
      = s.full_text ++ a.data := by
    rw [updText_full_text, updThink_full_text, updFirstChunk_full_text, updFinish_full_text]
  refine ⟨⟨?_, ?_⟩, ?_, ?_⟩
  · rw [hred]
    unfold commonTail commonTailChecks
    dsimp only
    rw [if_pos ⟨rfl, by rw [h4f]; exact hab⟩]
  · rw [hred]
    unfold commonTail commonTailChecks
    dsimp only
    rw [if_pos ⟨rfl, by rw [h4f]; exact hab⟩]
    dsimp only
    rw [apply_ite SState.error_msg]
    dsimp only
    rw [h4e, h4f, h4t]
  · simp [processData, gBlockObj, emptyObj, errTruthy, chunkErr, hb]
  · exact stream_result_of_error (runChunks_error_mono _ cs s₂ pending hs₂)

/-- Witness for claim6_gemini_signals at a concrete empty-text abnormal
line, block line, and errored state. -/
theorem claim6_gemini_signals_witness :
    ((processData ⟨Provider.gemini, false, false⟩ initState (gTextFinObj "" "SAFETY")).2
        = Cmd.brk
     ∧ (processData ⟨Provider.gemini, false, false⟩ initState
          (gTextFinObj "" "SAFETY")).1.error_msg =
         (if initState.full_text ++ "".data = [] then
            "Stream ended by API (reason: " ++ "SAFETY" ++ ")" else ""))
    ∧ processData ⟨Provider.gemini, false, false⟩ initState (gBlockObj "X") =
        ({ initState with error_msg := "Content blocked (reason: " ++ "X" ++ ")" }, Cmd.brk)
    ∧ stream_result (runChunks ⟨Provider.gemini, false, false⟩
        { initState with error_msg := "E" } [] []) = none :=
  claim6_gemini_signals initState { initState with error_msg := "E" } "" "SAFETY" "X"
    [] [] false false (Or.inl rfl) rfl rfl (by decide) (by decide)
